import Mathlib

/-!
Verification of the FROST-controlled provenance-mark chain core
(`frost-pm-test`): a shallow embedding of the Rust sources
(`kdf.rs`, `message.rs`, `frost_group_config.rs`, `frost_group.rs`,
`pm_chain.rs`) together with proofs of the specification's claims
about them.  Bytes are modelled as `List Nat` (each entry < 256),
machine integers as `Nat`/`Int` with explicit truncation, fallible
Rust functions as values of an explicit outcome type, and `&mut self`
methods as state-passing functions.
-/

/-- Bytes are lists of naturals; every byte produced by the embedding is
taken modulo 256 exactly where the Rust code truncates. -/
abbrev Bytes := List Nat

/-- Truncation to a 32-bit word, as Rust's wrapping arithmetic on `u32`. -/
def w32 (x : Nat) : Nat := x % 4294967296

/-- Big-endian bytes of a `u16` (`u16::to_be_bytes`). -/
def u16be (n : Nat) : Bytes := [n / 256 % 256, n % 256]

/-- Big-endian bytes of a `u32` (`u32::to_be_bytes`). -/
def u32be (n : Nat) : Bytes :=
  [n / 16777216 % 256, n / 65536 % 256, n / 256 % 256, n % 256]

/-- Big-endian bytes of a `u64` (`u64::to_be_bytes`). -/
def u64be (n : Nat) : Bytes :=
  [n / 72057594037927936 % 256, n / 281474976710656 % 256,
   n / 1099511627776 % 256, n / 4294967296 % 256,
   n / 16777216 % 256, n / 65536 % 256, n / 256 % 256, n % 256]

/-- ASCII bytes of a string literal (all domain-separation tags are ASCII). -/
def strBytes (s : String) : Bytes := s.data.map Char.toNat

/-! ## SHA-256 (FIPS 180-4), executable over `List Nat`

The Rust code uses `sha2::Sha256`; we embed the full compression
function so that key-derivation claims can be settled on concrete
inputs. -/

/-- The 32-bit right rotation. -/
def rotr32 (n x : Nat) : Nat := w32 ((x >>> n) ||| (x <<< (32 - n)))

/-- SHA-256 small sigma 0. -/
def lowSigma0 (x : Nat) : Nat := (rotr32 7 x) ^^^ (rotr32 18 x) ^^^ (x >>> 3)

/-- SHA-256 small sigma 1. -/
def lowSigma1 (x : Nat) : Nat := (rotr32 17 x) ^^^ (rotr32 19 x) ^^^ (x >>> 10)

/-- SHA-256 big Sigma 0. -/
def bigSigma0 (x : Nat) : Nat := (rotr32 2 x) ^^^ (rotr32 13 x) ^^^ (rotr32 22 x)

/-- SHA-256 big Sigma 1. -/
def bigSigma1 (x : Nat) : Nat := (rotr32 6 x) ^^^ (rotr32 11 x) ^^^ (rotr32 25 x)

/-- SHA-256 choice function. -/
def chF (x y z : Nat) : Nat := (x &&& y) ^^^ ((x ^^^ 4294967295) &&& z)

/-- SHA-256 majority function. -/
def majF (x y z : Nat) : Nat := (x &&& y) ^^^ (x &&& z) ^^^ (y &&& z)

/-- The 64 SHA-256 round constants. -/
def sha256K : List Nat :=
  [1116352408, 1899447441, 3049323471, 3921009573,
  961987163, 1508970993, 2453635748, 2870763221,
  3624381080, 310598401, 607225278, 1426881987,
  1925078388, 2162078206, 2614888103, 3248222580,
  3835390401, 4022224774, 264347078, 604807628,
  770255983, 1249150122, 1555081692, 1996064986,
  2554220882, 2821834349, 2952996808, 3210313671,
  3336571891, 3584528711, 113926993, 338241895,
  666307205, 773529912, 1294757372, 1396182291,
  1695183700, 1986661051, 2177026350, 2456956037,
  2730485921, 2820302411, 3259730800, 3345764771,
  3516065817, 3600352804, 4094571909, 275423344,
  430227734, 506948616, 659060556, 883997877,
  958139571, 1322822218, 1537002063, 1747873779,
  1955562222, 2024104815, 2227730452, 2361852424,
  2428436474, 2756734187, 3204031479, 3329325298]

/-- Working state of the SHA-256 compression function. -/
structure Sha256State where
  a : Nat
  b : Nat
  c : Nat
  d : Nat
  e : Nat
  f : Nat
  g : Nat
  h : Nat
deriving Repr, DecidableEq

/-- The SHA-256 initial hash value. -/
def sha256Init : Sha256State :=
  ⟨1779033703, 3144134277, 1013904242, 2773480762,
   1359893119, 2600822924, 528734635, 1541459225⟩

/-- One SHA-256 round. -/
def sha256Round (st : Sha256State) (kw : Nat × Nat) : Sha256State :=
  let t1 := w32 (st.h + bigSigma1 st.e + chF st.e st.f st.g + kw.1 + kw.2)
  let t2 := w32 (bigSigma0 st.a + majF st.a st.b st.c)
  ⟨w32 (t1 + t2), st.a, st.b, st.c, w32 (st.d + t1), st.e, st.f, st.g⟩

/-- Group a byte stream into big-endian 32-bit words. -/
def bytesToWords : Bytes → List Nat
  | a :: b :: c :: d :: rest =>
      (((a * 256 + b) * 256 + c) * 256 + d) :: bytesToWords rest
  | _ => []

/-- Extend the 16 message words of a block to the 64-entry schedule. -/
def sha256Schedule (block : List Nat) : List Nat :=
  (List.range 48).foldl
    (fun w j =>
      let i := j + 16
      w ++ [w32 (w.getD (i - 16) 0 + lowSigma0 (w.getD (i - 15) 0) +
                 w.getD (i - 7) 0 + lowSigma1 (w.getD (i - 2) 0))])
    block

/-- Compress one 512-bit block into the running hash state. -/
def sha256Compress (hs : Sha256State) (block : List Nat) : Sha256State :=
  let w := sha256Schedule block
  let st := (sha256K.zip w).foldl sha256Round hs
  ⟨w32 (hs.a + st.a), w32 (hs.b + st.b), w32 (hs.c + st.c), w32 (hs.d + st.d),
   w32 (hs.e + st.e), w32 (hs.f + st.f), w32 (hs.g + st.g), w32 (hs.h + st.h)⟩

/-- SHA-256 padding: `0x80`, zeros to 56 mod 64, and the bit length. -/
def sha256Pad (msg : Bytes) : Bytes :=
  let l := msg.length
  msg ++ [128] ++ List.replicate ((120 - (l + 1) % 64) % 64) 0 ++ u64be (8 * l)

/-- Split into 64-byte blocks, structurally recursing on a fuel bound so
the kernel can evaluate it (the fuel never runs out: each step consumes
at least one byte). -/
def toBlocksFuel : Nat → Bytes → List Bytes
  | 0, _ => []
  | _, [] => []
  | fuel + 1, a :: rest =>
      (a :: rest).take 64 :: toBlocksFuel fuel ((a :: rest).drop 64)

/-- Split a padded message into 64-byte blocks. -/
def toBlocks (l : Bytes) : List Bytes := toBlocksFuel l.length l

/-- Full SHA-256 over a byte string (embeds `kdf.rs::sha256`). -/
def sha256 (msg : Bytes) : Bytes :=
  let hs := ((toBlocks (sha256Pad msg)).map bytesToWords).foldl sha256Compress
    sha256Init
  u32be hs.a ++ u32be hs.b ++ u32be hs.c ++ u32be hs.d ++
  u32be hs.e ++ u32be hs.f ++ u32be hs.g ++ u32be hs.h

set_option maxRecDepth 100000

example : (sha256 (strBytes "abc")).take 4 = [186, 120, 22, 191] := by decide

/-! ## HMAC-SHA256 and HKDF-SHA256 (RFC 2104 / RFC 5869)

`kdf.rs::hkdf_next` uses `hkdf::Hkdf::<Sha256>` (extract-then-expand);
we embed both primitives executably. -/

/-- HMAC-SHA256 of `msg` under `key`. -/
def hmacSha256 (key msg : Bytes) : Bytes :=
  let k0 :=
    if 64 < key.length then sha256 key ++ List.replicate 32 0
    else key ++ List.replicate (64 - key.length) 0
  sha256 ((k0.map (fun b => b ^^^ 92)) ++
          sha256 ((k0.map (fun b => b ^^^ 54)) ++ msg))

/-- Concatenation of HKDF-expand blocks `T(i) … T(i+n-1)`, where `prev` is
the preceding block (`T(0) = ""`). -/
def hkdfBlocks (prk info : Bytes) (prev : Bytes) (i : Nat) : Nat → Bytes
  | 0 => []
  | n + 1 =>
      let t := hmacSha256 prk (prev ++ info ++ [i % 256])
      t ++ hkdfBlocks prk info t (i + 1) n

/-- HKDF-SHA256 expand: first `len` bytes of `T(1) ∥ T(2) ∥ …`. -/
def hkdfExpand (prk info : Bytes) (len : Nat) : Bytes :=
  (hkdfBlocks prk info [] 1 ((len + 31) / 32)).take len

/-- HKDF-SHA256 extract: `PRK = HMAC(salt, ikm)`. -/
def hkdfExtract (salt ikm : Bytes) : Bytes := hmacSha256 salt ikm

example :
    hkdfExpand
      (hkdfExtract (List.replicate 13 12)
        (List.replicate 22 11))
      (List.replicate 10 249) 8 =
      [64, 121, 214, 31, 227, 55, 30, 24] := by decide

/-! ## `kdf.rs` -/

/-- Embeds `ProvenanceMarkResolution` from the external `provenance_mark` crate
(an enumeration; only its four cases matter to this repository). -/
inductive ProvenanceMarkResolution where
  | low
  | medium
  | quartile
  | high
deriving Repr, DecidableEq

/-- Embeds `kdf.rs::link_len`: link length in bytes for each resolution. -/
def link_len (res : ProvenanceMarkResolution) : Nat :=
  match res with
  | .low => 4
  | .medium => 8
  | .quartile => 16
  | .high => 32

/-- Embeds `kdf.rs::hkdf_next`: derive exactly `len` bytes from a signature
serialization and message salt, via HKDF-SHA256 with `salt = SHA-256(salt_msg)`. -/
def hkdf_next (len : Nat) (sig_bytes salt_msg info : Bytes) : Bytes :=
  let salt := sha256 salt_msg
  let prk := hkdfExtract salt sig_bytes
  hkdfExpand prk info len

/-- Produces `n` bytes of a natural, little-endian (the canonical Ed25519 scalar
serialization order used by `frost_ed25519::Identifier::serialize`). -/
def leBytes : Nat → Nat → Bytes
  | 0, _ => []
  | k + 1, n => n % 256 :: leBytes k (n / 256)

/-- Embeds `frost_ed25519::Identifier::serialize`: the canonical 32-byte
little-endian scalar encoding of the identifier. -/
def idSerialize (id : Nat) : Bytes := leBytes 32 id

/-- A `BTreeMap<Identifier, SigningCommitments>` modelled as an
association list ordered by identifier; the commitment value is kept in
its opaque serialized form, since the chain core only serializes and
hashes it. -/
abbrev CommitMap := List (Nat × Bytes)

/-- The canonical serialization of an identifier used when hashing
commitment bundles (`bincode::serialize(id)`): modelled as the 32-byte
scalar encoding — the core treats these bytes as opaque, and only their
determinism and injectivity matter. -/
def bincodeId (id : Nat) : Bytes := idSerialize id

/-- Embeds `kdf.rs::commitments_root`: length-prefixed concatenation of the
serialized (identifier, commitments) pairs in map order, hashed with
SHA-256. -/
def commitments_root (commitments : CommitMap) : Bytes :=
  sha256 (commitments.foldr
    (fun e acc =>
      u16be (bincodeId e.1).length ++ bincodeId e.1 ++
      u16be e.2.length ++ e.2 ++ acc)
    [])

/-- Embeds `kdf.rs::kdf_next`: `SHA-256("PM:v1/next" ∥ chain_id ∥ u32_be(seq) ∥ root)`
truncated to the resolution's link length. -/
def kdf_next (chain_id : Bytes) (seq : Nat) (root : Bytes)
    (res : ProvenanceMarkResolution) : Bytes :=
  let msg := strBytes "PM:v1/next" ++ chain_id ++ u32be seq ++ root
  let hash := sha256 msg
  hash.take (link_len res)

/-- Embeds `kdf.rs::derive_link_from_root`: alternative argument order for
`kdf_next`. -/
def derive_link_from_root (res : ProvenanceMarkResolution)
    (chain_id : Bytes) (seq : Nat) (root : Bytes) : Bytes :=
  kdf_next chain_id seq root res

/-! ## `message.rs` -/

/-- Embeds `message.rs::DS_GENESIS`. -/
def DS_GENESIS : Bytes := strBytes "BC:ProvMark:FROST:v1:GENESIS" ++ [0]

/-- Embeds `message.rs::DS_HASH`. -/
def DS_HASH : Bytes := strBytes "BC:ProvMark:FROST:v1:HASH" ++ [0]

/-- Embeds `message.rs::DS_KDF_K0`. -/
def DS_KDF_K0 : Bytes := strBytes "BC:ProvMark:FROST:v1:KDF:key0" ++ [0]

/-- Embeds `message.rs::DS_KDF_NXT`. -/
def DS_KDF_NXT : Bytes := strBytes "BC:ProvMark:FROST:v1:KDF:next" ++ [0]

/-- Embeds `message.rs::res_code`. -/
def res_code (res : ProvenanceMarkResolution) : Nat :=
  match res with
  | .low => 0
  | .medium => 1
  | .quartile => 2
  | .high => 3

/-- Lexicographic comparison of byte vectors, as Rust's `Vec<u8>::cmp`
(used by `ids.sort_by(|a, b| a.serialize().cmp(&b.serialize()))`). -/
def bytesLe : Bytes → Bytes → Bool
  | [], _ => true
  | _ :: _, [] => false
  | a :: as_, b :: bs => if a < b then true else if b < a then false else bytesLe as_ bs

/-- The sort relation of `genesis_message`: identifiers ordered by their
serialized bytes. -/
def idLe (a b : Nat) : Prop := bytesLe (idSerialize a) (idSerialize b) = true

instance : DecidableRel idLe := fun a b => by unfold idLe; infer_instance

/-- Length-prefixed serialized identifiers, in list order (the loop at the
end of `genesis_message`). -/
def encodeIds (ids : List Nat) : Bytes :=
  ids.foldr
    (fun id acc => u16be (idSerialize id).length ++ idSerialize id ++ acc) []

/-- Embeds `message.rs::genesis_message`: domain tag, resolution code, threshold,
roster size, count and the sorted, length-prefixed identifiers. -/
def genesis_message (res : ProvenanceMarkResolution)
    (min_signers max_signers : Nat) (ids : List Nat) : Bytes :=
  let sorted := ids.insertionSort idLe
  DS_GENESIS ++ [res_code res] ++ u16be min_signers ++ u16be max_signers ++
  u16be sorted.length ++ encodeIds sorted

/-- Embeds `chrono::DateTime<Utc>` modelled as its timestamp in milliseconds. -/
abbrev UtcDate := Int

/-- Embeds `date.timestamp_millis() as u64`: two's-complement reinterpretation of
the signed millisecond count. -/
def millisU64 (d : UtcDate) : Nat := (d % 18446744073709551616).toNat

/-- Embeds `date.timestamp()`: whole seconds since the epoch (floor division). -/
def dateSeconds (d : UtcDate) : Int := Int.ediv d 1000

/-- Embeds `message.rs::hash_message`: the per-mark signing message
`DS_HASH ∥ id ∥ u32_be(seq) ∥ u64_be(millis) ∥ u16_be(len) ∥ obj_hash`. -/
def hash_message (id : Bytes) (seq : Nat) (date : UtcDate)
    (obj_hash : Bytes) : Bytes :=
  DS_HASH ++ id ++ u32be seq ++ u64be (millisU64 date) ++
  u16be obj_hash.length ++ obj_hash

/-! ## Outcomes

Rust `Result<T, anyhow::Error>` values are modelled by `ok`/`err`; a Rust
panic (e.g. `BTreeMap` indexing on a missing key, or `.expect`) is the
distinct outcome `crash` — it is not a returned error value. -/

inductive Outcome (α : Type) where
  | ok (a : α)
  | err (e : String)
  | crash (e : String)
deriving Repr, DecidableEq

/-- Whether the computation returned `Ok`. -/
def Outcome.isOk {α : Type} : Outcome α → Bool
  | .ok _ => true
  | _ => false

/-- Whether the computation panicked (as opposed to returning `Err`). -/
def Outcome.isCrash {α : Type} : Outcome α → Bool
  | .crash _ => true
  | _ => false

/-- The `Ok` payload, when present. -/
def Outcome.toOption {α : Type} : Outcome α → Option α
  | .ok a => some a
  | _ => none

/-! ## `frost_group_config.rs` -/

/-- Strict lexicographic order on byte lists. -/
def natsLt : List Nat → List Nat → Bool
  | [], [] => false
  | [], _ :: _ => true
  | _ :: _, [] => false
  | a :: as_, b :: bs =>
      if a < b then true else if b < a then false else natsLt as_ bs

/-- Rust's `String` ordering (lexicographic on the encoded bytes), used
as the `BTreeMap<String, _>` key order. -/
def strLt (a b : String) : Bool := natsLt (strBytes a) (strBytes b)

/-- Insert into a `BTreeMap<String, _>` modelled as an association list
sorted by key; an existing binding for the key is overwritten. -/
def mapInsert (k : String) (v : Nat) : List (String × Nat) → List (String × Nat)
  | [] => [(k, v)]
  | (k', v') :: rest =>
      if strLt k k' then (k, v) :: (k', v') :: rest
      else if k = k' then (k, v) :: rest
      else (k', v') :: mapInsert k v rest

/-- Embeds `BTreeMap::get` on the name-keyed map. -/
def mapLookup (k : String) : List (String × Nat) → Option Nat
  | [] => none
  | (k', v') :: rest => if k = k' then some v' else mapLookup k rest

/-- Embeds `Identifier::try_from((i + 1) as u16)`: the cast truncates to 16 bits
and the conversion fails exactly on zero. -/
def idTryFrom (v : Nat) : Except String Nat :=
  let v16 := v % 65536
  if v16 = 0 then .error "malformed identifier" else .ok v16

/-- Embeds `FrostGroupConfig` (the `id_to_name` reverse map is only used for
display and error text, so it is not carried in the model). -/
structure FrostGroupConfig where
  min_signers : Nat
  participants : List (String × Nat)
  charter : String
deriving Repr, DecidableEq

/-- The construction loop of `FrostGroupConfig::new`: enumerate the
roster, assigning identifier `i + 1` to the `i`-th name. -/
def buildParticipants : Nat → List String → List (String × Nat) →
    Except String (List (String × Nat))
  | _, [], acc => .ok acc
  | i, name :: rest, acc =>
      match idTryFrom (i + 1) with
      | .error e => .error e
      | .ok id => buildParticipants (i + 1) rest (mapInsert name id acc)

/-- Embeds `FrostGroupConfig::new`: validate the threshold against the roster
size, then assign identifiers `1..n` in roster order. -/
def FrostGroupConfig.new (min_signers : Nat) (participant_names : List String)
    (charter : String) : Except String FrostGroupConfig :=
  let max_signers := participant_names.length
  if max_signers < min_signers then
    .error "min_signers cannot be greater than max_signers"
  else if min_signers = 0 then
    .error "min_signers must be at least 1"
  else
    match buildParticipants 0 participant_names [] with
    | .error e => .error e
    | .ok participants => .ok ⟨min_signers, participants, charter⟩

/-! ## `frost_group.rs`

The group's key material (`KeyPackage`s, `PublicKeyPackage`) lives in the
external `frost_ed25519` crate; the embedding keeps the roster and models
the per-participant cryptographic computations (Round-1 commit output,
Round-2 signature shares, aggregation) as an oracle environment — the
chain core treats all of those values as opaque bytes. -/

/-- A `BTreeMap<String, SigningNonces>` with the nonce in opaque
serialized form. -/
abbrev NonceMap := List (String × Bytes)

/-- The probabilistic / external-crate parts of the FROST protocol, as a
deterministic oracle environment: `commitFor` is one participant's
Round-1 output (serialized commitments and matching secret nonce),
`shareFor name msg nonce` the participant's Round-2 share over the
signing package, and `agg` the aggregation of shares. -/
structure CryptoEnv where
  commitFor : String → Bytes × Bytes
  shareFor : String → Bytes → Bytes → Except String Bytes
  agg : Bytes → List (Nat × Bytes) → Except String Bytes

/-- Embeds `FrostGroup`: the configuration, with key packages present for
exactly the configured roster. -/
structure FrostGroup where
  config : FrostGroupConfig
deriving Repr, DecidableEq

/-- Embeds `FrostGroup::min_signers`. -/
def FrostGroup.min_signers (g : FrostGroup) : Nat := g.config.min_signers

/-- Embeds `FrostGroup::max_signers` (the size of the participants map). -/
def FrostGroup.max_signers (g : FrostGroup) : Nat :=
  g.config.participants.length

/-- Embeds `FrostGroup::name_to_id`. -/
def FrostGroup.name_to_id (g : FrostGroup) (name : String) : Option Nat :=
  mapLookup name g.config.participants

/-- Embeds `FrostGroup::participant_names`: the map's keys, in map order. -/
def FrostGroup.participant_names (g : FrostGroup) : List String :=
  g.config.participants.map Prod.fst

/-- Insert into the identifier-keyed commitments `BTreeMap`. -/
def cmapInsert (k : Nat) (v : Bytes) : CommitMap → CommitMap
  | [] => [(k, v)]
  | (k', v') :: rest =>
      if k < k' then (k, v) :: (k', v') :: rest
      else if k = k' then (k, v) :: rest
      else (k', v') :: cmapInsert k v rest

/-- Insert into a name-keyed nonce `BTreeMap`. -/
def nmapInsert (k : String) (v : Bytes) : NonceMap → NonceMap
  | [] => [(k, v)]
  | (k', v') :: rest =>
      if strLt k k' then (k, v) :: (k', v') :: rest
      else if k = k' then (k, v) :: rest
      else (k', v') :: nmapInsert k v rest

/-- Lookup in a name-keyed nonce map (`BTreeMap::get`). -/
def nmapLookup (k : String) : NonceMap → Option Bytes
  | [] => none
  | (k', v') :: rest => if k = k' then some v' else nmapLookup k rest

/-- The loop of `round_1_commit`: per signer, draw Round-1 output and
insert it into the identifier-keyed and name-keyed maps. -/
def round1Loop (g : FrostGroup) (env : CryptoEnv) :
    List String → CommitMap → NonceMap → Except String (CommitMap × NonceMap)
  | [], cm, nm => .ok (cm, nm)
  | name :: rest, cm, nm =>
      match g.name_to_id name with
      | none => .error "Unknown participant"
      | some id =>
          let (sc, nonce) := env.commitFor name
          round1Loop g env rest (cmapInsert id sc cm) (nmapInsert name nonce nm)

/-- Embeds `FrostGroup::round_1_commit`: threshold and roster checks, then the
per-signer commitment loop. -/
def FrostGroup.round_1_commit (g : FrostGroup) (env : CryptoEnv)
    (signers : List String) : Outcome (CommitMap × NonceMap) :=
  if signers.length < g.min_signers then
    .err "Need at least min_signers signers"
  else if signers.any (fun n => (g.name_to_id n).isNone) then
    .err "Unknown participant"
  else
    match round1Loop g env signers [] [] with
    | .error e => .err e
    | .ok r => .ok r

/-- Embeds `SigningPackage::new(commitments, message)` in its serialized form:
each signature share (and the aggregation) is computed over the
commitments together with the message. -/
def packageBytes (cm : CommitMap) (message : Bytes) : Bytes :=
  cm.foldr (fun e acc => u32be e.1 ++ e.2 ++ acc) [] ++ message

/-- The Round-2 loop of `round_2_sign`: for each signer, resolve the
identifier, index the supplied nonce map (`nonces_map[signer_name]` —
a panic when the key is absent), and compute the signature share over
the signing package. -/
def round2Shares (g : FrostGroup) (env : CryptoEnv) (nonces : NonceMap)
    (pkg : Bytes) : List String → Outcome (List (Nat × Bytes))
  | [] => .ok []
  | name :: rest =>
      match g.name_to_id name with
      | none => .err "Unknown participant"
      | some id =>
          match nmapLookup name nonces with
          | none => .crash "no entry found for key"
          | some nonce =>
              match env.shareFor name pkg nonce with
              | .error e => .err e
              | .ok share =>
                  match round2Shares g env nonces pkg rest with
                  | .ok l => .ok ((id, share) :: l)
                  | .err e => .err e
                  | .crash e => .crash e

/-- Embeds `FrostGroup::round_2_sign`: threshold check, per-signer share
computation over the replayed commitments, then aggregation. -/
def FrostGroup.round_2_sign (g : FrostGroup) (env : CryptoEnv)
    (signers : List String) (commitments : CommitMap) (nonces : NonceMap)
    (message : Bytes) : Outcome Bytes :=
  if signers.length < g.min_signers then
    .err "Need at least min_signers signers"
  else
    let pkg := packageBytes commitments message
    match round2Shares g env nonces pkg signers with
    | .err e => .err e
    | .crash e => .crash e
    | .ok shares =>
        match env.agg pkg shares with
        | .error e => .err e
        | .ok sig => .ok sig

/-- The share loop of the one-shot `sign`: nonces were just generated
for every signer, so each lookup succeeds by construction. -/
def signShares (g : FrostGroup) (env : CryptoEnv) (pkg : Bytes) :
    List String → Except String (List (Nat × Bytes))
  | [] => .ok []
  | name :: rest =>
      match g.name_to_id name with
      | none => .error "Unknown participant"
      | some id =>
          match env.shareFor name pkg (env.commitFor name).2 with
          | .error e => .error e
          | .ok share =>
              match signShares g env pkg rest with
              | .error e => .error e
              | .ok l => .ok ((id, share) :: l)

/-- Embeds `FrostGroup::sign`: the one-shot signing ceremony — threshold and
roster validation, Round-1, the signing package, Round-2 and
aggregation. -/
def FrostGroup.sign (g : FrostGroup) (env : CryptoEnv) (message : Bytes)
    (signers : List String) : Outcome Bytes :=
  if signers.length < g.min_signers then
    .err "Need at least min_signers signers"
  else if signers.any (fun n => (g.name_to_id n).isNone) then
    .err "Unknown participant"
  else
    match round1Loop g env signers [] [] with
    | .error e => .err e
    | .ok (cm, _nm) =>
        let pkg := packageBytes cm message
        match signShares g env pkg signers with
        | .error e => .err e
        | .ok shares =>
            match env.agg pkg shares with
            | .error e => .err e
            | .ok sig => .ok sig

/-! ## The `provenance_mark` crate (external, modelled from the spec)

The mark crate is out of scope for the repository and is specified only
through its contracts: `ProvenanceMark::new(res, key, next_key, chain_id,
seq, date, info) → Mark | MarkError` with link-length byte fields,
`hash()` deterministic over all fields, and `is_genesis()` iff `seq == 0`
and `key == chain_id`. -/

/-- A provenance mark value (external crate, modelled from the spec's
data-model contract).  `date` is the mark's timestamp in whole seconds
(`dcbor::Date::from_timestamp(date.timestamp())`). -/
structure ProvenanceMark where
  res : ProvenanceMarkResolution
  key : Bytes
  nextKey : Bytes
  chainId : Bytes
  seq : Nat
  date : Int
  info : Option Bytes
deriving Repr, DecidableEq

/-- Modelled from the spec: `ProvenanceMark::new` — the mark constructor
of the external provenance-mark crate; its `key`, `next_key` and
`chain_id` arguments are link-length byte strings (`bytes[L]`), and
construction fails with a `MarkError` otherwise. -/
def ProvenanceMark.new (res : ProvenanceMarkResolution)
    (key nextKey chainId : Bytes) (seq : Nat) (date : Int)
    (info : Option Bytes) : Except String ProvenanceMark :=
  if key.length = link_len res ∧ nextKey.length = link_len res ∧
      chainId.length = link_len res then
    .ok ⟨res, key, nextKey, chainId, seq, date, info⟩
  else
    .error "MarkError: invalid field length"

/-- Modelled from the spec: `Mark.hash()` — deterministic over all of the
mark's fields (including `next_key` and `info`); modelled as SHA-256 of
an injective canonical encoding of the fields. -/
def ProvenanceMark.hash (m : ProvenanceMark) : Bytes :=
  sha256 ([res_code m.res] ++
    u32be m.key.length ++ m.key ++
    u32be m.nextKey.length ++ m.nextKey ++
    u32be m.chainId.length ++ m.chainId ++
    u32be m.seq ++ u64be ((m.date % 18446744073709551616).toNat) ++
    (match m.info with
     | none => [0]
     | some i => [1] ++ u32be i.length ++ i))

/-- Modelled from the spec: `Mark.is_genesis()` iff `seq == 0` and
`key == chain_id`. -/
def ProvenanceMark.is_genesis (m : ProvenanceMark) : Bool :=
  m.seq == 0 && m.key == m.chainId

/-! ## `pm_chain.rs` -/

/-- Embeds `pm_chain.rs::prev_commitment_matches`: rebuild the previous mark
with the candidate next key substituted and compare hashes. -/
def prev_commitment_matches (prev : ProvenanceMark)
    (candidate_next_key : Bytes) : Except String Bool :=
  match ProvenanceMark.new prev.res prev.key candidate_next_key prev.chainId
      prev.seq prev.date prev.info with
  | .error e => .error e
  | .ok mark => .ok (mark.hash == prev.hash)

/-- Embeds `pm_chain.rs::PrecommitReceipt`. -/
structure PrecommitReceipt where
  seq : Nat
  root : Bytes
  ids : List Nat
  commitments : CommitMap
deriving Repr, DecidableEq

/-- Embeds `pm_chain.rs::ChainMeta`. -/
structure ChainMeta where
  res : ProvenanceMarkResolution
  id : Bytes
  seq_next : Nat
  last_date : UtcDate
deriving Repr, DecidableEq

/-- The mutable state of `FrostPmChain` (the group reference is read-only
and passed separately). -/
structure FrostPmChainState where
  meta : ChainMeta
  current_receipt : Option PrecommitReceipt
  current_nonces : Option NonceMap
deriving Repr, DecidableEq

/-- Embeds `.map(|name| group.name_to_id(name).unwrap())` /
`.expect("valid participant")`: resolve every name, panicking on an
unknown one. -/
def namesToIds (g : FrostGroup) : List String → Outcome (List Nat)
  | [] => .ok []
  | name :: rest =>
      match g.name_to_id name with
      | none => .crash "called unwrap on a None value"
      | some id =>
          match namesToIds g rest with
          | .ok l => .ok (id :: l)
          | .err e => .err e
          | .crash e => .crash e

/-- Embeds `FrostPmChain::new_genesis`: one FROST session for `key_0`, one for
`nextKey_0`, then mark 0.  Returns the initial chain state, mark 0 and
`nextKey_0`. -/
def new_genesis (g : FrostGroup) (env : CryptoEnv)
    (res : ProvenanceMarkResolution) (genesis_signers : List String)
    (date0 : UtcDate) (obj_hash : Bytes) :
    Outcome (FrostPmChainState × ProvenanceMark × Bytes) :=
  if genesis_signers.length < g.min_signers then
    .err "insufficient signers"
  else
    let ll := link_len res
    match namesToIds g g.participant_names with
    | .err e => .err e
    | .crash e => .crash e
    | .ok ids =>
        let m0 := genesis_message res g.min_signers g.max_signers ids
        match g.sign env m0 genesis_signers with
        | .err e => .err ("Failed to sign genesis message: " ++ e)
        | .crash e => .crash e
        | .ok sig0 =>
            let key0 := hkdf_next ll sig0 m0 DS_KDF_K0
            let id := key0
            let m_hash0 := hash_message id 0 date0 obj_hash
            match g.sign env m_hash0 genesis_signers with
            | .err e => .err ("Failed to sign hash message: " ++ e)
            | .crash e => .crash e
            | .ok sig_hash0 =>
                let next_key0 := hkdf_next ll sig_hash0 m_hash0 DS_KDF_NXT
                match ProvenanceMark.new res key0 next_key0 id 0
                    (dateSeconds date0) none with
                | .error e => .err e
                | .ok mark0 =>
                    .ok (⟨⟨res, id, 1, date0⟩, none, none⟩, mark0, next_key0)

/-- Embeds `FrostPmChain::append_mark_with_key`: reveal the supplied previous
`nextKey` as `key_i`, sign `M_i` to derive `nextKey_i`.  Returns the
produced mark and `nextKey_i`, with the state after the call. -/
def append_mark_with_key (g : FrostGroup) (env : CryptoEnv)
    (st : FrostPmChainState) (signers : List String) (date : UtcDate)
    (obj_hash : Bytes) (key_i : Bytes) (seq_i : Nat) :
    Outcome (ProvenanceMark × Bytes) × FrostPmChainState :=
  if signers.length < g.min_signers then
    (.err "insufficient signers", st)
  else if date < st.meta.last_date then
    (.err "date monotonicity violated", st)
  else
    let ll := link_len st.meta.res
    let m_hash_i := hash_message st.meta.id seq_i date obj_hash
    match g.sign env m_hash_i signers with
    | .err e => (.err ("Failed to sign hash message: " ++ e), st)
    | .crash e => (.crash e, st)
    | .ok sig_i =>
        let next_key_i := hkdf_next ll sig_i m_hash_i DS_KDF_NXT
        match ProvenanceMark.new st.meta.res key_i next_key_i st.meta.id
            seq_i (dateSeconds date) none with
        | .error e => (.err e, st)
        | .ok mark_i =>
            (.ok (mark_i, next_key_i),
             { st with meta := { st.meta with seq_next := seq_i + 1,
                                              last_date := date } })

/-- Embeds `FrostPmChain::precommit_next_mark`: collect Round-1 commitments for
`seq_next`, compute their root, and store the receipt and nonces in the
chain state. -/
def precommit_next_mark (g : FrostGroup) (env : CryptoEnv)
    (st : FrostPmChainState) (participants : List String) (seq_next : Nat) :
    Outcome PrecommitReceipt × FrostPmChainState :=
  if participants.length < g.min_signers then
    (.err "insufficient signers for precommit", st)
  else
    match g.round_1_commit env participants with
    | .err e => (.err ("Failed to collect Round-1 commitments: " ++ e), st)
    | .crash e => (.crash e, st)
    | .ok (commitments_map, nonces_map) =>
        let root_next := commitments_root commitments_map
        let _next_key := kdf_next st.meta.id seq_next root_next st.meta.res
        match namesToIds g participants with
        | .err e => (.err e, st)
        | .crash e => (.crash e, st)
        | .ok ids =>
            let receipt : PrecommitReceipt :=
              ⟨seq_next, root_next, ids, commitments_map⟩
            (.ok receipt,
             { st with current_receipt := some receipt,
                       current_nonces := some nonces_map })

/-- Embeds `FrostPmChain::append_mark_stateless`: consume the stored precommit
receipt and nonces for `seq`, run Round-2 over the same commitments,
precommit for `seq + 1`, and build the mark. -/
def append_mark_stateless (g : FrostGroup) (env : CryptoEnv)
    (st : FrostPmChainState) (participants : List String) (seq : Nat)
    (date : UtcDate) (obj_hash : Bytes) :
    Outcome ProvenanceMark × FrostPmChainState :=
  if participants.length < g.min_signers then
    (.err "insufficient signers", st)
  else if date < st.meta.last_date then
    (.err "date monotonicity violated", st)
  else if seq ≠ st.meta.seq_next then
    (.err "sequence number mismatch", st)
  else
    match st.current_receipt with
    | none => (.err "No precommit found for seq", st)
    | some receipt =>
        match st.current_nonces with
        | none => (.err "No nonces found for seq", st)
        | some stored_nonces =>
            if receipt.seq ≠ seq then
              (.err "receipt sequence mismatch", st)
            else
              let key_seq := kdf_next st.meta.id seq receipt.root st.meta.res
              let message := hash_message st.meta.id seq date obj_hash
              match g.round_2_sign env participants receipt.commitments
                  stored_nonces message with
              | .err e =>
                  (.err ("Failed to complete Round-2 signing: " ++ e), st)
              | .crash e => (.crash e, st)
              | .ok _signature =>
                  match precommit_next_mark g env st participants (seq + 1) with
                  | (.err e, st1) => (.err e, st1)
                  | (.crash e, st1) => (.crash e, st1)
                  | (.ok next_receipt, st1) =>
                      let next_key_seq := kdf_next st.meta.id (seq + 1)
                        next_receipt.root st.meta.res
                      match ProvenanceMark.new st.meta.res key_seq next_key_seq
                          st.meta.id seq (dateSeconds date) none with
                      | .error e => (.err e, st1)
                      | .ok mark =>
                          (.ok mark,
                           { st1 with meta := { st1.meta with
                               seq_next := seq + 1, last_date := date } })

/-! ## Support lemmas -/

/-- Embeds `Except::is_ok`. -/
def exOk {α : Type} : Except String α → Bool
  | .ok _ => true
  | .error _ => false

theorem sha256_length (msg : Bytes) : (sha256 msg).length = 32 := by
  simp [sha256, u32be]

theorem kdf_next_length (cid : Bytes) (seq : Nat) (root : Bytes)
    (res : ProvenanceMarkResolution) :
    (kdf_next cid seq root res).length = link_len res := by
  have h32 : link_len res ≤ 32 := by cases res <;> simp [link_len]
  simp [kdf_next, List.length_take, sha256_length]
  omega

theorem hmacSha256_length (key msg : Bytes) :
    (hmacSha256 key msg).length = 32 :=
  sha256_length _

theorem hkdfBlocks_length (prk info : Bytes) :
    ∀ (n : Nat) (prev : Bytes) (i : Nat),
      (hkdfBlocks prk info prev i n).length = n * 32 := by
  intro n
  induction n with
  | zero => intro prev i; simp [hkdfBlocks]
  | succ k ih =>
      intro prev i
      simp [hkdfBlocks, hmacSha256_length, ih]
      ring

theorem hkdfExpand_length (prk info : Bytes) (len : Nat) :
    (hkdfExpand prk info len).length = len := by
  simp [hkdfExpand, List.length_take, hkdfBlocks_length]
  omega

theorem hkdf_next_length (len : Nat) (sig_bytes salt_msg info : Bytes) :
    (hkdf_next len sig_bytes salt_msg info).length = len :=
  hkdfExpand_length _ _ _

/-! Lexicographic byte order: totality, transitivity, antisymmetry (used
for the canonical identifier sort in `genesis_message`). -/

/-- The byte order as a relation on `Bytes`. -/
def bLe (x y : Bytes) : Prop := bytesLe x y = true

theorem bytesLe_total : ∀ x y, bytesLe x y = true ∨ bytesLe y x = true := by
  intro x
  induction x with
  | nil => intro y; left; simp [bytesLe]
  | cons a as_ ih =>
      intro y
      cases y with
      | nil => right; simp [bytesLe]
      | cons b bs =>
          by_cases hab : a < b
          · left; simp [bytesLe, hab]
          · by_cases hba : b < a
            · right
              simp [bytesLe, hba, Nat.lt_asymm hba]
            · rcases ih bs with h | h
              · left; simp [bytesLe, hab, hba, h]
              · right; simp [bytesLe, hab, hba, h]

theorem bytesLe_trans :
    ∀ x y z, bytesLe x y = true → bytesLe y z = true → bytesLe x z = true := by
  intro x
  induction x with
  | nil => intro y z _ _; simp [bytesLe]
  | cons a as_ ih =>
      intro y z hxy hyz
      cases y with
      | nil => simp [bytesLe] at hxy
      | cons b bs =>
          cases z with
          | nil => simp [bytesLe] at hyz
          | cons c cs =>
              simp only [bytesLe] at hxy hyz ⊢
              by_cases hab : a < b
              · have hbc : b ≤ c := by
                  by_cases h1 : b < c
                  · exact Nat.le_of_lt h1
                  · by_cases h2 : c < b
                    · simp [h1, h2] at hyz
                    · omega
                have hac : a < c := Nat.lt_of_lt_of_le hab hbc
                simp [hac]
              · by_cases hba : b < a
                · simp [hab, hba] at hxy
                · have hab' : a = b := by omega
                  subst hab'
                  by_cases hac : a < c
                  · simp [hac]
                  · by_cases hca : c < a
                    · simp [Nat.lt_irrefl, hca] at hyz
                      omega
                    · have : a = c := by omega
                      subst this
                      simp [Nat.lt_irrefl] at hxy hyz ⊢
                      exact ih bs cs hxy hyz

theorem bytesLe_antisymm :
    ∀ x y, bytesLe x y = true → bytesLe y x = true → x = y := by
  intro x
  induction x with
  | nil =>
      intro y _ hyx
      cases y with
      | nil => rfl
      | cons b bs => simp [bytesLe] at hyx
  | cons a as_ ih =>
      intro y hxy hyx
      cases y with
      | nil => simp [bytesLe] at hxy
      | cons b bs =>
          simp only [bytesLe] at hxy hyx
          by_cases hab : a < b
          · simp [hab, Nat.lt_asymm hab] at hyx
          · by_cases hba : b < a
            · simp [hab, hba] at hxy
            · have hab' : a = b := by omega
              subst hab'
              simp [Nat.lt_irrefl] at hxy hyx
              exact congrArg (a :: ·) (ih bs hxy hyx)

instance : IsTotal Bytes bLe := ⟨fun x y => bytesLe_total x y⟩

instance : IsTrans Bytes bLe := ⟨fun x y z => bytesLe_trans x y z⟩

instance : IsAntisymm Bytes bLe := ⟨fun x y => bytesLe_antisymm x y⟩

instance : IsTotal Nat idLe :=
  ⟨fun a b => bytesLe_total (idSerialize a) (idSerialize b)⟩

instance : IsTrans Nat idLe :=
  ⟨fun a b c => bytesLe_trans (idSerialize a) (idSerialize b) (idSerialize c)⟩

theorem encodeIds_congr :
    ∀ l₁ l₂ : List Nat, l₁.map idSerialize = l₂.map idSerialize →
      encodeIds l₁ = encodeIds l₂ := by
  intro l₁
  induction l₁ with
  | nil => intro l₂ h; cases l₂ <;> simp_all [encodeIds]
  | cons a as_ ih =>
      intro l₂ h
      cases l₂ with
      | nil => simp at h
      | cons b bs =>
          simp only [List.map_cons, List.cons.injEq] at h
          have htail : encodeIds as_ = encodeIds bs := ih bs h.2
          simp only [encodeIds, List.foldr_cons] at htail ⊢
          rw [h.1, htail]

/-! Name-keyed map lemmas for the configuration roster. -/

theorem mapLookup_insert_self (k : String) (v : Nat) :
    ∀ m, mapLookup k (mapInsert k v m) = some v := by
  intro m
  induction m with
  | nil => simp [mapInsert, mapLookup]
  | cons p rest ih =>
      obtain ⟨k', v'⟩ := p
      by_cases h1 : strLt k k' = true
      · simp [mapInsert, h1, mapLookup]
      · by_cases h2 : k = k'
        · subst h2
          simp [mapInsert, h1, mapLookup]
        · simp [mapInsert, h1, h2, mapLookup, ih]

theorem mapLookup_insert_ne (k k' : String) (v : Nat) (hne : k ≠ k') :
    ∀ m, mapLookup k (mapInsert k' v m) = mapLookup k m := by
  intro m
  induction m with
  | nil => simp [mapInsert, mapLookup, hne]
  | cons p rest ih =>
      obtain ⟨k'', v''⟩ := p
      by_cases h1 : strLt k' k'' = true
      · simp [mapInsert, h1, mapLookup, hne]
      · by_cases h2 : k' = k''
        · subst h2
          simp [mapInsert, h1, mapLookup, hne]
        · by_cases h3 : k = k''
          · simp [mapInsert, h1, h2, mapLookup, h3]
          · simp [mapInsert, h1, h2, mapLookup, h3, ih]

theorem buildParticipants_isOk (names : List String) :
    ∀ (i : Nat) (acc : List (String × Nat)), i + names.length ≤ 65535 →
      ∃ m, buildParticipants i names acc = .ok m := by
  induction names with
  | nil => intro i acc _; exact ⟨acc, rfl⟩
  | cons n rest ih =>
      intro i acc hle
      simp only [List.length_cons] at hle
      have hid : idTryFrom (i + 1) = .ok (i + 1) := by
        have h1 : (i + 1) % 65536 = i + 1 := Nat.mod_eq_of_lt (by omega)
        simp [idTryFrom, h1]
      obtain ⟨m, hm⟩ := ih (i + 1) (mapInsert n (i + 1) acc) (by omega)
      exact ⟨m, by simp [buildParticipants, hid, hm]⟩

theorem buildParticipants_lookup_notmem (names : List String) :
    ∀ (i : Nat) (acc m : List (String × Nat)) (k : String),
      buildParticipants i names acc = .ok m → k ∉ names →
      mapLookup k m = mapLookup k acc := by
  induction names with
  | nil =>
      intro i acc m k hok _
      simp [buildParticipants] at hok
      rw [hok]
  | cons n rest ih =>
      intro i acc m k hok hnm
      simp only [List.mem_cons, not_or] at hnm
      cases hid : idTryFrom (i + 1) with
      | error e => simp [buildParticipants, hid] at hok
      | ok id =>
          simp only [buildParticipants, hid] at hok
          rw [ih (i + 1) _ m k hok hnm.2]
          exact mapLookup_insert_ne k n id hnm.1 acc

theorem buildParticipants_lookup (names : List String) :
    ∀ (i : Nat) (acc m : List (String × Nat)),
      i + names.length ≤ 65535 →
      buildParticipants i names acc = .ok m → names.Nodup →
      ∀ (j : Nat) (h : j < names.length),
        mapLookup (names.get ⟨j, h⟩) m = some (i + j + 1) := by
  induction names with
  | nil => intro i acc m _ _ _ j h; simp at h
  | cons n rest ih =>
      intro i acc m hle hok hnd j h
      simp only [List.length_cons] at hle
      have hid : idTryFrom (i + 1) = .ok (i + 1) := by
        have h1 : (i + 1) % 65536 = i + 1 := Nat.mod_eq_of_lt (by omega)
        simp [idTryFrom, h1]
      simp only [buildParticipants, hid] at hok
      rcases List.nodup_cons.mp hnd with ⟨hnin, hndrest⟩
      cases j with
      | zero =>
          simp only [List.get]
          rw [buildParticipants_lookup_notmem rest (i + 1) _ m n hok hnin]
          simpa using mapLookup_insert_self n (i + 1) acc
      | succ j' =>
          have h' : j' < rest.length := by
            simp only [List.length_cons] at h; omega
          have := ih (i + 1) (mapInsert n (i + 1) acc) m (by omega) hok
            hndrest j' h'
          simpa [Nat.add_assoc, Nat.add_comm, Nat.add_left_comm] using this

/-! ## Claims -/

/-- Claim C5. For every chain_id, sequence number, 32-byte root and
resolution, the derived link key equals SHA-256 of
`"PM:v1/next" ∥ chain_id ∥ u32_be(seq) ∥ root` truncated to the
resolution's link length (4, 8, 16 or 32 bytes), and the derivation is a
pure function: identical inputs always yield identical bytes. -/
theorem claim_c5_derive_link :
    ∀ (chain_id : Bytes) (seq : Nat) (root : Bytes)
      (res : ProvenanceMarkResolution),
      kdf_next chain_id seq root res =
        (sha256 (strBytes "PM:v1/next" ++ chain_id ++ u32be seq ++ root)).take
          (link_len res) ∧
      (link_len res = 4 ∨ link_len res = 8 ∨ link_len res = 16 ∨
        link_len res = 32) ∧
      (kdf_next chain_id seq root res).length = link_len res ∧
      (∀ chain_id' seq' root' res', chain_id = chain_id' → seq = seq' →
        root = root' → res = res' →
        kdf_next chain_id seq root res = kdf_next chain_id' seq' root' res') := by
  intro cid seq root res
  refine ⟨rfl, ?_, kdf_next_length cid seq root res, ?_⟩
  · cases res <;> simp [link_len]
  · intro cid' seq' root' res' h1 h2 h3 h4
    subst h1; subst h2; subst h3; subst h4
    rfl

/-- Witness for C5 at concrete inputs. -/
theorem claim_c5_derive_link_witness :
    kdf_next [1] 0 [2] .low = kdf_next [1] 0 [2] .low ∧
    (kdf_next [1] 0 [2] .low).length = link_len .low :=
  ⟨(claim_c5_derive_link [1] 0 [2] .low).2.2.2 [1] 0 [2] .low rfl rfl rfl rfl,
   (claim_c5_derive_link [1] 0 [2] .low).2.2.1⟩

/-- Claim C6 counterexample. The claim says the per-mark message begins
with the fixed ASCII tag `"DS_HASH\0"`; at a concrete input its first 8
bytes differ from that tag (they are the start of
`"BC:ProvMark:FROST:v1:HASH\0"`). -/
theorem claim_c6_counterexample :
    (hash_message [1, 2, 3, 4] 1 0 []).take 8 ≠ strBytes "DS_HASH" ++ [0] := by
  decide

/-- Claim C6 (amended). The per-mark signing message is
`"BC:ProvMark:FROST:v1:HASH\0" ∥ chain_id ∥ u32_be(seq) ∥
u64_be(timestamp_millis(date)) ∥ u16_be(len(obj_hash)) ∥ obj_hash`, with
all multi-byte integers big-endian and the tag a fixed ASCII literal. -/
theorem claim_c6_hash_message :
    ∀ (id : Bytes) (seq : Nat) (date : UtcDate) (obj_hash : Bytes),
      hash_message id seq date obj_hash =
        (strBytes "BC:ProvMark:FROST:v1:HASH" ++ [0]) ++ id ++ u32be seq ++
        u64be (millisU64 date) ++ u16be obj_hash.length ++ obj_hash ∧
      (hash_message id seq date obj_hash).length =
        26 + id.length + 4 + 8 + 2 + obj_hash.length := by
  intro id seq date obj_hash
  constructor
  · rfl
  · have h26 : DS_HASH.length = 26 := by decide
    simp [hash_message, u32be, u64be, u16be, h26]
    omega

/-- Claim C7 counterexample. The claim says construction fails with a
`DuplicateName` error whenever the participant names are not pairwise
distinct; with the duplicated roster `["a", "a"]` construction
succeeds. -/
theorem claim_c7_counterexample :
    ¬ (["a", "a"] : List String).Nodup ∧
    exOk (FrostGroupConfig.new 1 ["a", "a"] "c") = true := by
  constructor
  · decide
  · rfl

/-- Claim C7 (amended). Group-config construction fails exactly when the
threshold is 0 or exceeds the number of names (for rosters below the
u16 identifier bound); duplicate names are not rejected — a later
duplicate overwrites the earlier assignment — and with pairwise-distinct
names it succeeds with ids assigned `1..n` in roster order. -/
theorem claim_c7_config_new :
    ∀ (t : Nat) (names : List String) (charter : String),
      names.length ≤ 65534 →
      (exOk (FrostGroupConfig.new t names charter) = true ↔
        (1 ≤ t ∧ t ≤ names.length)) ∧
      (∀ cfg, FrostGroupConfig.new t names charter = .ok cfg →
        cfg.min_signers = t ∧
        (names.Nodup → ∀ (j : Nat) (h : j < names.length),
          mapLookup (names.get ⟨j, h⟩) cfg.participants = some (j + 1))) := by
  intro t names charter hlen
  constructor
  · constructor
    · intro hok
      by_cases h1 : names.length < t
      · simp [FrostGroupConfig.new, h1, exOk] at hok
      · by_cases h2 : t = 0
        · simp [FrostGroupConfig.new, h1, h2, exOk] at hok
        · omega
    · intro ⟨h1, h2⟩
      obtain ⟨m, hm⟩ := buildParticipants_isOk names 0 [] (by omega)
      have hnl : ¬ names.length < t := by omega
      have hnz : ¬ t = 0 := by omega
      simp [FrostGroupConfig.new, hnl, hnz, hm, exOk]
  · intro cfg hok
    by_cases h1 : names.length < t
    · simp [FrostGroupConfig.new, h1] at hok
    · by_cases h2 : t = 0
      · simp [FrostGroupConfig.new, h1, h2] at hok
      · cases hb : buildParticipants 0 names [] with
        | error e => simp [FrostGroupConfig.new, h1, h2, hb] at hok
        | ok m =>
            simp only [FrostGroupConfig.new, if_neg h1, if_neg h2, hb,
              Except.ok.injEq] at hok
            subst hok
            refine ⟨rfl, fun hnd j h => ?_⟩
            simpa using buildParticipants_lookup names 0 [] m (by omega) hb
              hnd j h

/-- Witness for C7 at a concrete roster. -/
theorem claim_c7_config_new_witness :
    exOk (FrostGroupConfig.new 2 ["b", "a"] "demo") = true ∧
    (∀ cfg, FrostGroupConfig.new 2 ["b", "a"] "demo" = .ok cfg →
      cfg.min_signers = 2 ∧
      ((["b", "a"] : List String).Nodup →
        ∀ (j : Nat) (h : j < (["b", "a"] : List String).length),
          mapLookup ((["b", "a"] : List String).get ⟨j, h⟩) cfg.participants =
            some (j + 1))) :=
  ⟨((claim_c7_config_new 2 ["b", "a"] "demo" (by decide)).1).mpr (by decide),
   fun cfg hok => (claim_c7_config_new 2 ["b", "a"] "demo" (by decide)).2 cfg hok⟩

/-- A 2-of-3 FROST group (the shape produced by
`FrostGroupConfig::new(2, ["alice", "bob", "charlie"], …)`). -/
def g23 : FrostGroup := ⟨⟨2, [("alice", 1), ("bob", 2), ("charlie", 3)], "demo"⟩⟩

/-- A concrete oracle environment: commitments, nonces, shares and the
aggregated signature are fixed short byte strings. -/
def envOk : CryptoEnv :=
  ⟨fun n => (strBytes n, [7]),
   fun _ _ _ => .ok [1],
   fun _ _ => .ok [9]⟩

/-- Claim C8. The claim (with the spec) says Round-2 signing given a signer
without a matching nonce returns a `MissingNonce` error value; the code
instead indexes the nonce map (`nonces_map[signer_name]`) and panics.
Evaluating the embedding at such an input yields the panic outcome, not
an error return. -/
theorem claim_c8_missing_nonce_panics :
    FrostGroup.round_2_sign g23 envOk ["alice", "bob"]
      [(1, [5]), (2, [6])] [("alice", [7])] [1, 2, 3] =
      .crash "no entry found for key" ∧
    (FrostGroup.round_2_sign g23 envOk ["alice", "bob"]
      [(1, [5]), (2, [6])] [("alice", [7])] [1, 2, 3]).isOk = false := by
  constructor <;> rfl


/-- Claim C10. The genesis message is independent of the order in which
participant identifiers are supplied: for every resolution, threshold,
participant count, and every permutation of the same identifier list,
`genesis_message` returns the same byte string (identifiers are
canonically sorted by their serialized bytes before encoding). -/
theorem claim_c10_genesis_message_perm :
    ∀ (res : ProvenanceMarkResolution) (t n : Nat) (ids1 ids2 : List Nat),
      List.Perm ids1 ids2 →
      genesis_message res t n ids1 = genesis_message res t n ids2 := by
  intro res t n ids1 ids2 hp
  have hs1 : List.Sorted bLe ((ids1.insertionSort idLe).map idSerialize) :=
    List.Pairwise.map idSerialize (fun _ _ h => h)
      (List.sorted_insertionSort idLe ids1)
  have hs2 : List.Sorted bLe ((ids2.insertionSort idLe).map idSerialize) :=
    List.Pairwise.map idSerialize (fun _ _ h => h)
      (List.sorted_insertionSort idLe ids2)
  have hperm : List.Perm ((ids1.insertionSort idLe).map idSerialize)
      ((ids2.insertionSort idLe).map idSerialize) :=
    List.Perm.map idSerialize
      ((List.perm_insertionSort idLe ids1).trans
        (hp.trans (List.perm_insertionSort idLe ids2).symm))
  have heq := List.eq_of_perm_of_sorted hperm hs1 hs2
  have hlen : (ids1.insertionSort idLe).length = (ids2.insertionSort idLe).length := by
    have h1 := congrArg List.length heq
    simpa using h1
  have henc : encodeIds (ids1.insertionSort idLe) =
      encodeIds (ids2.insertionSort idLe) :=
    encodeIds_congr _ _ heq
  simp only [genesis_message, hlen, henc]

/-- Witness for C10 on a concrete permutation. -/
theorem claim_c10_genesis_message_perm_witness :
    genesis_message .low 2 3 [1, 2, 3] = genesis_message .low 2 3 [3, 1, 2] :=
  claim_c10_genesis_message_perm .low 2 3 [1, 2, 3] [3, 1, 2] (by decide)

/-! ## Chain fixtures

Concrete commitment bundles, a broken-linkage chain state and the marks
they induce, used to evaluate the chain operations on explicit inputs. -/

/-- A Round-1 commitment bundle (ids 1 and 2 with opaque commitment
bytes). -/
def cmA : CommitMap := [(1, [10]), (2, [20])]

/-- A second bundle differing from `cmA` in one commitment byte. -/
def cmB : CommitMap := [(1, [10]), (2, [21])]

/-- A genesis-shaped previous mark whose `next_key` was derived from the
root of `cmA` — i.e. the key it commits its successor to reveal. -/
def m0C1 : ProvenanceMark :=
  ⟨.low, [1, 2, 3, 4], kdf_next [1, 2, 3, 4] 1 (commitments_root cmA) .low,
   [1, 2, 3, 4], 0, 0, none⟩

/-- A chain state whose stored receipt carries the root of `cmB` — not
the root `m0C1` committed to. -/
def stC1 : FrostPmChainState :=
  ⟨⟨.low, [1, 2, 3, 4], 1, 0⟩,
   some ⟨1, commitments_root cmB, [1, 2], cmB⟩,
   some [("alice", [7]), ("bob", [8])]⟩

/-- Claim C1. The claim (with the spec) says every non-genesis append
recomputes the previous mark's hash with the candidate key substituted
and admits the mark only when it matches, failing with `LinkageBroken`
otherwise.  The code never performs this gate (`prev_commitment_matches`
is defined but never called): at a state whose receipt root does not
match what the previous mark committed to, the append succeeds, produces
a mark whose key is the candidate key, and the gate predicate itself
reports the mismatch. -/
theorem claim_c1_no_linkage_gate :
    (append_mark_stateless g23 envOk stC1 ["alice", "bob"] 1 5 []).1.isOk =
      true ∧
    ((append_mark_stateless g23 envOk stC1 ["alice", "bob"] 1 5 []).1.toOption.map
      ProvenanceMark.key) =
      some (kdf_next [1, 2, 3, 4] 1 (commitments_root cmB) .low) ∧
    prev_commitment_matches m0C1
      (kdf_next [1, 2, 3, 4] 1 (commitments_root cmB) .low) = .ok false := by
  refine ⟨?_, ?_, ?_⟩ <;> rfl

/-- Modelled from the spec: §4.4 Genesis (`new_chain`) — the genesis
construction the spec describes, which is absent from `pm_chain.rs`:
verify the client-supplied threshold signature over M₀ (failing with
`BadGenesisSignature`), derive `key_0` and `chain_id` from the signature,
derive `next_key_0` from the supplied Round-1 bundle's root, and build
mark 0. -/
def new_chain_spec (g : FrostGroup) (verify : Bytes → Bytes → Bool)
    (sig : Bytes) (bundle1 : CommitMap) (res : ProvenanceMarkResolution)
    (date0 : UtcDate) : Except String (ProvenanceMark × PrecommitReceipt) :=
  let ids := g.config.participants.map Prod.snd
  let m0 := genesis_message res g.min_signers g.max_signers ids
  if verify m0 sig = false then .error "BadGenesisSignature"
  else
    let key0 := hkdf_next (link_len res) sig m0 DS_KDF_K0
    let root1 := commitments_root bundle1
    let nk0 := kdf_next key0 1 root1 res
    match ProvenanceMark.new res key0 nk0 key0 0 (dateSeconds date0) none with
    | .error e => .error e
    | .ok mark0 => .ok (mark0, ⟨1, root1, [], bundle1⟩)

/-- Claim C2. The claim (with the spec and the repository's own tests) says
genesis verifies a client-supplied threshold signature over M₀ before
building mark 0 and fails with `BadGenesisSignature` otherwise.  The
code's `new_genesis` accepts no signature and performs no verification —
it signs internally and succeeds even in an environment whose signature
fails every verifier, where the spec-modelled genesis rejects with
`BadGenesisSignature`. -/
theorem claim_c2_genesis_never_verifies :
    (new_genesis g23 envOk .low ["alice", "bob"] 0 []).isOk = true ∧
    new_chain_spec g23 (fun _ _ => false) [9] [(1, [5])] .low 0 =
      .error "BadGenesisSignature" := by
  constructor <;> rfl

/-! ## Inversion lemmas for the chain operations -/

theorem mark_new_ok {res : ProvenanceMarkResolution} {key nk cid : Bytes}
    {seq : Nat} {date : Int} {info : Option Bytes} {m : ProvenanceMark}
    (h : ProvenanceMark.new res key nk cid seq date info = .ok m) :
    m = ⟨res, key, nk, cid, seq, date, info⟩ ∧ key.length = link_len res ∧
    nk.length = link_len res ∧ cid.length = link_len res := by
  unfold ProvenanceMark.new at h
  split at h
  · rename_i hc
    injection h with h'
    exact ⟨h'.symm, hc.1, hc.2.1, hc.2.2⟩
  · cases h

theorem mark_new_ok_of {res : ProvenanceMarkResolution} {key nk cid : Bytes}
    {seq : Nat} {date : Int} {info : Option Bytes}
    (h1 : key.length = link_len res) (h2 : nk.length = link_len res)
    (h3 : cid.length = link_len res) :
    ProvenanceMark.new res key nk cid seq date info =
      .ok ⟨res, key, nk, cid, seq, date, info⟩ := by
  simp [ProvenanceMark.new, h1, h2, h3]

theorem precommit_meta (g : FrostGroup) (env : CryptoEnv)
    (st : FrostPmChainState) (ps : List String) (sn : Nat) :
    (precommit_next_mark g env st ps sn).2.meta = st.meta := by
  by_cases h1 : ps.length < g.min_signers
  · simp [precommit_next_mark, h1]
  · simp only [precommit_next_mark, if_neg h1]
    cases hr : g.round_1_commit env ps with
    | err e => simp
    | crash e => simp
    | ok p =>
        obtain ⟨cm, nm⟩ := p
        cases hn : namesToIds g ps with
        | err e => simp
        | crash e => simp
        | ok ids => simp

theorem precommit_err_state {g : FrostGroup} {env : CryptoEnv}
    {st st' : FrostPmChainState} {ps : List String} {sn : Nat} {e : String}
    (h : precommit_next_mark g env st ps sn = (.err e, st')) : st' = st := by
  by_cases h1 : ps.length < g.min_signers
  · simp only [precommit_next_mark, if_pos h1, Prod.mk.injEq] at h
    exact h.2.symm
  · simp only [precommit_next_mark, if_neg h1] at h
    cases hr : g.round_1_commit env ps with
    | err e2 => simp only [hr, Prod.mk.injEq] at h; exact h.2.symm
    | crash e2 => simp [hr] at h
    | ok p =>
        obtain ⟨cm, nm⟩ := p
        simp only [hr] at h
        cases hn : namesToIds g ps with
        | err e3 => simp only [hn, Prod.mk.injEq] at h; exact h.2.symm
        | crash e3 => simp [hn] at h
        | ok ids => simp [hn] at h

theorem round1Loop_ok (g : FrostGroup) (env : CryptoEnv) :
    ∀ (l : List String) (cm : CommitMap) (nm : NonceMap),
      (∀ n ∈ l, (g.name_to_id n).isSome = true) →
      ∃ p, round1Loop g env l cm nm = .ok p := by
  intro l
  induction l with
  | nil => intro cm nm _; exact ⟨(cm, nm), rfl⟩
  | cons n rest ih =>
      intro cm nm hk
      have hn : (g.name_to_id n).isSome = true := hk n (by simp)
      obtain ⟨id, hid⟩ := Option.isSome_iff_exists.mp hn
      obtain ⟨p, hp⟩ := ih (cmapInsert id (env.commitFor n).1 cm)
        (nmapInsert n (env.commitFor n).2 nm) (fun m hm => hk m (by simp [hm]))
      refine ⟨p, ?_⟩
      simp [round1Loop, hid, hp]

theorem namesToIds_ok (g : FrostGroup) :
    ∀ l : List String, (∀ n ∈ l, (g.name_to_id n).isSome = true) →
      ∃ ids, namesToIds g l = .ok ids := by
  intro l
  induction l with
  | nil => exact fun _ => ⟨[], rfl⟩
  | cons n rest ih =>
      intro hk
      have hn : (g.name_to_id n).isSome = true := hk n (by simp)
      obtain ⟨id, hid⟩ := Option.isSome_iff_exists.mp hn
      obtain ⟨ids, hids⟩ := ih (fun m hm => hk m (by simp [hm]))
      exact ⟨id :: ids, by simp [namesToIds, hid, hids]⟩

theorem round2Shares_names {g : FrostGroup} {env : CryptoEnv}
    {nonces : NonceMap} {pkg : Bytes} :
    ∀ {l : List String} {s : List (Nat × Bytes)},
      round2Shares g env nonces pkg l = .ok s →
      ∀ n ∈ l, (g.name_to_id n).isSome = true := by
  intro l
  induction l with
  | nil => intro s _ n hn; cases hn
  | cons m rest ih =>
      intro s h n hn
      simp only [round2Shares] at h
      cases hid : g.name_to_id m with
      | none => simp only [hid] at h; exact Outcome.noConfusion h
      | some id =>
          simp only [hid] at h
          cases hlk : nmapLookup m nonces with
          | none => simp only [hlk] at h; exact Outcome.noConfusion h
          | some nonce =>
              simp only [hlk] at h
              cases hsh : env.shareFor m pkg nonce with
              | error e => simp only [hsh] at h; exact Outcome.noConfusion h
              | ok share =>
                  simp only [hsh] at h
                  cases hrest : round2Shares g env nonces pkg rest with
                  | ok l2 =>
                      rcases List.mem_cons.mp hn with h1 | h1
                      · subst h1; simp [hid]
                      · exact ih hrest n h1
                  | err e => simp only [hrest] at h; exact Outcome.noConfusion h
                  | crash e => simp only [hrest] at h; exact Outcome.noConfusion h

theorem round_2_sign_names {g : FrostGroup} {env : CryptoEnv}
    {signers : List String} {cm : CommitMap} {nonces : NonceMap}
    {message sg : Bytes}
    (h : g.round_2_sign env signers cm nonces message = .ok sg) :
    ∀ n ∈ signers, (g.name_to_id n).isSome = true := by
  by_cases h1 : signers.length < g.min_signers
  · simp [FrostGroup.round_2_sign, h1] at h
  · simp only [FrostGroup.round_2_sign, if_neg h1] at h
    cases hsh : round2Shares g env nonces (packageBytes cm message) signers with
    | ok shares => exact round2Shares_names hsh
    | err e => simp only [hsh] at h; exact Outcome.noConfusion h
    | crash e => simp only [hsh] at h; exact Outcome.noConfusion h

theorem precommit_ok (g : FrostGroup) (env : CryptoEnv)
    (st : FrostPmChainState) (ps : List String) (sn : Nat)
    (hlen : ¬ ps.length < g.min_signers)
    (hk : ∀ n ∈ ps, (g.name_to_id n).isSome = true) :
    (precommit_next_mark g env st ps sn).1.isOk = true := by
  obtain ⟨⟨cm, nm⟩, hp⟩ := round1Loop_ok g env ps [] [] hk
  obtain ⟨ids, hids⟩ := namesToIds_ok g ps hk
  have hany : ps.any (fun n => (g.name_to_id n).isNone) = false := by
    simp only [List.any_eq_false]
    intro n hn
    have := hk n hn
    simp [Option.isNone_iff_eq_none]
    exact Option.isSome_iff_exists.mp this |>.elim fun a ha => by simp [ha]
  have hr1 : g.round_1_commit env ps = .ok (cm, nm) := by
    simp [FrostGroup.round_1_commit, hlen, hany, hp]
  simp [precommit_next_mark, hlen, hr1, hids, Outcome.isOk]

theorem append_stateless_ok {g : FrostGroup} {env : CryptoEnv}
    {st st' : FrostPmChainState} {ps : List String} {seq : Nat}
    {date : UtcDate} {obj : Bytes} {mark : ProvenanceMark}
    (h : append_mark_stateless g env st ps seq date obj = (.ok mark, st')) :
    mark.seq = seq ∧ seq = st.meta.seq_next ∧ ¬ date < st.meta.last_date ∧
    st'.meta.seq_next = seq + 1 ∧ st'.meta.last_date = date ∧
    mark.res = st.meta.res ∧ mark.key.length = link_len st.meta.res ∧
    mark.date = dateSeconds date := by
  by_cases h1 : ps.length < g.min_signers
  · simp only [append_mark_stateless, if_pos h1, Prod.mk.injEq] at h
    exact Outcome.noConfusion h.1
  · by_cases h2 : date < st.meta.last_date
    · simp only [append_mark_stateless, if_neg h1, if_pos h2,
        Prod.mk.injEq] at h
      exact Outcome.noConfusion h.1
    · by_cases h3 : seq ≠ st.meta.seq_next
      · simp only [append_mark_stateless, if_neg h1, if_neg h2, if_pos h3,
          Prod.mk.injEq] at h
        exact Outcome.noConfusion h.1
      · have hseq : seq = st.meta.seq_next := not_not.mp h3
        simp only [append_mark_stateless, if_neg h1, if_neg h2, if_neg h3] at h
        cases hrec : st.current_receipt with
        | none =>
            simp only [hrec, Prod.mk.injEq] at h
            exact Outcome.noConfusion h.1
        | some receipt =>
            simp only [hrec] at h
            cases hnon : st.current_nonces with
            | none =>
                simp only [hnon, Prod.mk.injEq] at h
                exact Outcome.noConfusion h.1
            | some nonces =>
                simp only [hnon] at h
                by_cases h4 : receipt.seq ≠ seq
                · simp only [if_pos h4, Prod.mk.injEq] at h
                  exact Outcome.noConfusion h.1
                · simp only [if_neg h4] at h
                  cases hr2 : g.round_2_sign env ps receipt.commitments nonces
                      (hash_message st.meta.id seq date obj) with
                  | err e =>
                      simp only [hr2, Prod.mk.injEq] at h
                      exact Outcome.noConfusion h.1
                  | crash e =>
                      simp only [hr2, Prod.mk.injEq] at h
                      exact Outcome.noConfusion h.1
                  | ok sg =>
                      simp only [hr2] at h
                      rcases hpc : precommit_next_mark g env st ps (seq + 1)
                        with ⟨o, st1⟩
                      have hmeta : st1.meta = st.meta := by
                        have := precommit_meta g env st ps (seq + 1)
                        rw [hpc] at this
                        exact this
                      cases o with
                      | err e =>
                          simp only [hpc, Prod.mk.injEq] at h
                          exact Outcome.noConfusion h.1
                      | crash e =>
                          simp only [hpc, Prod.mk.injEq] at h
                          exact Outcome.noConfusion h.1
                      | ok nr =>
                          simp only [hpc] at h
                          cases hmk : ProvenanceMark.new st.meta.res
                              (kdf_next st.meta.id seq receipt.root st.meta.res)
                              (kdf_next st.meta.id (seq + 1) nr.root st.meta.res)
                              st.meta.id seq (dateSeconds date) none with
                          | error e =>
                              simp only [hmk, Prod.mk.injEq] at h
                              exact Outcome.noConfusion h.1
                          | ok mk =>
                              simp only [hmk, Prod.mk.injEq] at h
                              obtain ⟨hm, hst⟩ := h
                              injection hm with hm
                              obtain ⟨hmk', _, _, _⟩ := mark_new_ok hmk
                              subst hm
                              subst hmk'
                              refine ⟨rfl, hseq, h2, ?_, ?_, rfl, ?_, rfl⟩
                              · rw [← hst]
                              · rw [← hst]
                              · exact kdf_next_length _ _ _ _

theorem append_with_key_ok {g : FrostGroup} {env : CryptoEnv}
    {st st' : FrostPmChainState} {signers : List String} {date : UtcDate}
    {obj key_i : Bytes} {seq_i : Nat} {mark : ProvenanceMark} {nk : Bytes}
    (h : append_mark_with_key g env st signers date obj key_i seq_i =
      (.ok (mark, nk), st')) :
    mark.seq = seq_i ∧ mark.key = key_i ∧ mark.res = st.meta.res ∧
    mark.key.length = link_len st.meta.res ∧ ¬ date < st.meta.last_date ∧
    st'.meta.seq_next = seq_i + 1 ∧ st'.meta.last_date = date ∧
    mark.date = dateSeconds date := by
  by_cases h1 : signers.length < g.min_signers
  · simp only [append_mark_with_key, if_pos h1, Prod.mk.injEq] at h
    exact Outcome.noConfusion h.1
  · by_cases h2 : date < st.meta.last_date
    · simp only [append_mark_with_key, if_neg h1, if_pos h2,
        Prod.mk.injEq] at h
      exact Outcome.noConfusion h.1
    · simp only [append_mark_with_key, if_neg h1, if_neg h2] at h
      cases hsg : g.sign env (hash_message st.meta.id seq_i date obj)
          signers with
      | err e =>
          simp only [hsg, Prod.mk.injEq] at h
          exact Outcome.noConfusion h.1
      | crash e =>
          simp only [hsg, Prod.mk.injEq] at h
          exact Outcome.noConfusion h.1
      | ok sig_i =>
          simp only [hsg] at h
          cases hmk : ProvenanceMark.new st.meta.res key_i
              (hkdf_next (link_len st.meta.res) sig_i
                (hash_message st.meta.id seq_i date obj) DS_KDF_NXT)
              st.meta.id seq_i (dateSeconds date) none with
          | error e =>
              simp only [hmk, Prod.mk.injEq] at h
              exact Outcome.noConfusion h.1
          | ok mk =>
              simp only [hmk, Prod.mk.injEq] at h
              obtain ⟨hm, hst⟩ := h
              injection hm with hm
              injection hm with hmark hnk
              obtain ⟨hmk', hkl, _, _⟩ := mark_new_ok hmk
              subst hmark
              subst hmk'
              refine ⟨rfl, rfl, rfl, hkl, h2, ?_, ?_, rfl⟩
              · rw [← hst]
              · rw [← hst]

theorem new_genesis_ok {g : FrostGroup} {env : CryptoEnv}
    {res : ProvenanceMarkResolution} {signers : List String} {d0 : UtcDate}
    {obj : Bytes} {st : FrostPmChainState} {m0 : ProvenanceMark} {nk : Bytes}
    (h : new_genesis g env res signers d0 obj = .ok (st, m0, nk)) :
    m0.is_genesis = true ∧ m0.key = m0.chainId ∧ m0.res = res ∧ m0.seq = 0 ∧
    m0.key.length = link_len res ∧ st.meta.id = m0.key ∧ st.meta.res = res ∧
    st.meta.seq_next = 1 ∧ st.meta.last_date = d0 ∧ nk = m0.nextKey := by
  by_cases h1 : signers.length < g.min_signers
  · simp only [new_genesis, if_pos h1] at h
    exact Outcome.noConfusion h
  · simp only [new_genesis, if_neg h1] at h
    cases hids : namesToIds g g.participant_names with
    | err e => simp only [hids] at h; exact Outcome.noConfusion h
    | crash e => simp only [hids] at h; exact Outcome.noConfusion h
    | ok ids =>
        simp only [hids] at h
        cases hs0 : g.sign env
            (genesis_message res g.min_signers g.max_signers ids) signers with
        | err e => simp only [hs0] at h; exact Outcome.noConfusion h
        | crash e => simp only [hs0] at h; exact Outcome.noConfusion h
        | ok sig0 =>
            simp only [hs0] at h
            cases hs1 : g.sign env
                (hash_message
                  (hkdf_next (link_len res) sig0
                    (genesis_message res g.min_signers g.max_signers ids)
                    DS_KDF_K0) 0 d0 obj) signers with
            | err e => simp only [hs1] at h; exact Outcome.noConfusion h
            | crash e => simp only [hs1] at h; exact Outcome.noConfusion h
            | ok sig_h0 =>
                simp only [hs1] at h
                cases hmk : ProvenanceMark.new res
                    (hkdf_next (link_len res) sig0
                      (genesis_message res g.min_signers g.max_signers ids)
                      DS_KDF_K0)
                    (hkdf_next (link_len res) sig_h0
                      (hash_message
                        (hkdf_next (link_len res) sig0
                          (genesis_message res g.min_signers g.max_signers ids)
                          DS_KDF_K0) 0 d0 obj) DS_KDF_NXT)
                    (hkdf_next (link_len res) sig0
                      (genesis_message res g.min_signers g.max_signers ids)
                      DS_KDF_K0) 0 (dateSeconds d0) none with
                | error e => simp only [hmk] at h; exact Outcome.noConfusion h
                | ok mark0 =>
                    simp only [hmk, Outcome.ok.injEq, Prod.mk.injEq] at h
                    obtain ⟨hst, hm0, hnk⟩ := h
                    obtain ⟨hmk', hkl, _, _⟩ := mark_new_ok hmk
                    subst hst
                    subst hm0
                    subst hnk
                    subst hmk'
                    refine ⟨by simp [ProvenanceMark.is_genesis], rfl, rfl, rfl,
                      hkl, rfl, rfl, rfl, rfl, rfl⟩

/-- Claim C3. For every invocation of append that returns an error, the
chain's observable state (chain metadata and the pending receipt state)
is exactly what it was before the call: failed appends are no-ops on
chain state.  (The well-formedness hypothesis — the chain id has the
resolution's link length — holds for every state the API produces, by
C9.) -/
theorem claim_c3_failed_append_noop :
    (∀ (g : FrostGroup) (env : CryptoEnv) (st : FrostPmChainState)
      (participants : List String) (seq : Nat) (date : UtcDate) (obj : Bytes)
      (e : String) (st' : FrostPmChainState),
      st.meta.id.length = link_len st.meta.res →
      append_mark_stateless g env st participants seq date obj =
        (.err e, st') → st' = st) ∧
    (∀ (g : FrostGroup) (env : CryptoEnv) (st : FrostPmChainState)
      (participants : List String) (sn : Nat) (e : String)
      (st' : FrostPmChainState),
      precommit_next_mark g env st participants sn = (.err e, st') →
      st' = st) := by
  constructor
  · intro g env st ps seq date obj e st' hwf h
    by_cases h1 : ps.length < g.min_signers
    · simp only [append_mark_stateless, if_pos h1, Prod.mk.injEq] at h
      exact h.2.symm
    · by_cases h2 : date < st.meta.last_date
      · simp only [append_mark_stateless, if_neg h1, if_pos h2,
          Prod.mk.injEq] at h
        exact h.2.symm
      · by_cases h3 : seq ≠ st.meta.seq_next
        · simp only [append_mark_stateless, if_neg h1, if_neg h2, if_pos h3,
            Prod.mk.injEq] at h
          exact h.2.symm
        · simp only [append_mark_stateless, if_neg h1, if_neg h2,
            if_neg h3] at h
          cases hrec : st.current_receipt with
          | none =>
              simp only [hrec, Prod.mk.injEq] at h
              exact h.2.symm
          | some receipt =>
              simp only [hrec] at h
              cases hnon : st.current_nonces with
              | none =>
                  simp only [hnon, Prod.mk.injEq] at h
                  exact h.2.symm
              | some nonces =>
                  simp only [hnon] at h
                  by_cases h4 : receipt.seq ≠ seq
                  · simp only [if_pos h4, Prod.mk.injEq] at h
                    exact h.2.symm
                  · simp only [if_neg h4] at h
                    cases hr2 : g.round_2_sign env ps receipt.commitments
                        nonces (hash_message st.meta.id seq date obj) with
                    | err e2 =>
                        simp only [hr2, Prod.mk.injEq] at h
                        exact h.2.symm
                    | crash e2 =>
                        simp only [hr2, Prod.mk.injEq] at h
                        exact Outcome.noConfusion h.1
                    | ok sg =>
                        simp only [hr2] at h
                        rcases hpc : precommit_next_mark g env st ps (seq + 1)
                          with ⟨o, st1⟩
                        cases o with
                        | err e3 =>
                            simp only [hpc, Prod.mk.injEq] at h
                            rw [← h.2]
                            exact precommit_err_state hpc
                        | crash e3 =>
                            simp only [hpc, Prod.mk.injEq] at h
                            exact Outcome.noConfusion h.1
                        | ok nr =>
                            simp only [hpc] at h
                            rw [mark_new_ok_of
                              (kdf_next_length st.meta.id seq receipt.root
                                st.meta.res)
                              (kdf_next_length st.meta.id (seq + 1) nr.root
                                st.meta.res)
                              hwf] at h
                            simp only [Prod.mk.injEq] at h
                            exact Outcome.noConfusion h.1
  · intro g env st ps sn e st' h
    exact precommit_err_state h

/-- Witness for C3: a date-regressing stateless append and an
insufficient-signer precommit both fail and return the state they were
given. -/
theorem claim_c3_failed_append_noop_witness :
    (⟨⟨.low, [1, 2, 3, 4], 1, 5⟩, none, none⟩ : FrostPmChainState) =
      ⟨⟨.low, [1, 2, 3, 4], 1, 5⟩, none, none⟩ ∧
    (⟨⟨.low, [1, 2, 3, 4], 1, 5⟩, none, none⟩ : FrostPmChainState) =
      ⟨⟨.low, [1, 2, 3, 4], 1, 5⟩, none, none⟩ :=
  ⟨claim_c3_failed_append_noop.1 g23 envOk
      ⟨⟨.low, [1, 2, 3, 4], 1, 5⟩, none, none⟩ ["alice", "bob"] 1 3 []
      "date monotonicity violated" _ (by rfl) (by rfl),
   claim_c3_failed_append_noop.2 g23 envOk
      ⟨⟨.low, [1, 2, 3, 4], 1, 5⟩, none, none⟩ ["alice"] 2
      "insufficient signers for precommit" _ (by rfl)⟩

/-- A fresh chain state at sequence 1 (used to exercise
`append_mark_with_key` with an out-of-order sequence number). -/
def stC4 : FrostPmChainState := ⟨⟨.low, [1, 2, 3, 4], 1, 0⟩, none, none⟩

/-- Claim C4 counterexample.  The claim says every successful append
produces a mark whose sequence number is exactly one greater than the
previous mark's; `append_mark_with_key` performs no sequence check, and
at a chain expecting sequence 1 a successful append with caller-supplied
`seq_i = 5` yields a mark with sequence 5 and sets the next expected
sequence to 6. -/
theorem claim_c4_counterexample :
    stC4.meta.seq_next = 1 ∧
    ((append_mark_with_key g23 envOk stC4 ["alice", "bob"] 7 [] [9, 9, 9, 9]
        5).1.toOption.map (fun p => p.1.seq)) = some 5 ∧
    (append_mark_with_key g23 envOk stC4 ["alice", "bob"] 7 [] [9, 9, 9, 9]
        5).2.meta.seq_next = 6 := by
  refine ⟨rfl, ?_, ?_⟩ <;> rfl

/-- Claim C4 (amended).  Stateless appends enforce `seq == seq_next`, so a
successful `append_mark_stateless` increments the sequence by exactly
one and its date is admissible (`last_date ≤ date`, recorded as the new
`last_date`); a date strictly earlier than `last_date` is rejected with
the date-monotonicity error, and an equal date is accepted.
`append_mark_with_key` performs no sequence check: a successful call
yields a mark carrying the caller-supplied `seq_i` and sets `seq_next`
to `seq_i + 1` (so the +1 property holds for it only when invoked with
`seq_i = seq_next`); its date handling is as above. -/
theorem claim_c4_seq_date_monotonicity :
    (∀ (g : FrostGroup) (env : CryptoEnv) (st : FrostPmChainState)
      (ps : List String) (seq : Nat) (date : UtcDate) (obj : Bytes)
      (mark : ProvenanceMark) (st' : FrostPmChainState),
      append_mark_stateless g env st ps seq date obj = (.ok mark, st') →
      mark.seq = st.meta.seq_next ∧
      st'.meta.seq_next = st.meta.seq_next + 1 ∧
      st.meta.last_date ≤ date ∧ st'.meta.last_date = date ∧
      dateSeconds st.meta.last_date ≤ mark.date) ∧
    (∀ (g : FrostGroup) (env : CryptoEnv) (st : FrostPmChainState)
      (ps : List String) (seq : Nat) (date : UtcDate) (obj : Bytes),
      ¬ ps.length < g.min_signers → date < st.meta.last_date →
      append_mark_stateless g env st ps seq date obj =
        (.err "date monotonicity violated", st)) ∧
    (∀ (g : FrostGroup) (env : CryptoEnv) (st : FrostPmChainState)
      (ps : List String) (obj : Bytes) (r : PrecommitReceipt) (nm : NonceMap)
      (sg : Bytes),
      ¬ ps.length < g.min_signers →
      st.current_receipt = some r →
      st.current_nonces = some nm →
      r.seq = st.meta.seq_next →
      g.round_2_sign env ps r.commitments nm
        (hash_message st.meta.id st.meta.seq_next st.meta.last_date obj) =
        .ok sg →
      st.meta.id.length = link_len st.meta.res →
      (append_mark_stateless g env st ps st.meta.seq_next st.meta.last_date
        obj).1.isOk = true) ∧
    (∀ (g : FrostGroup) (env : CryptoEnv) (st : FrostPmChainState)
      (signers : List String) (date : UtcDate) (obj key_i : Bytes)
      (seq_i : Nat) (mark : ProvenanceMark) (nk : Bytes)
      (st' : FrostPmChainState),
      append_mark_with_key g env st signers date obj key_i seq_i =
        (.ok (mark, nk), st') →
      mark.seq = seq_i ∧ st'.meta.seq_next = seq_i + 1 ∧
      st.meta.last_date ≤ date ∧ st'.meta.last_date = date) := by
  refine ⟨?_, ?_, ?_, ?_⟩
  · intro g env st ps seq date obj mark st' h
    obtain ⟨ha, hb, hc, hd, he, _, _, hh⟩ := append_stateless_ok h
    refine ⟨by rw [ha, hb], by rw [hd, hb], not_lt.mp hc, he, ?_⟩
    rw [hh]
    exact Int.ediv_le_ediv (by norm_num) (not_lt.mp hc)
  · intro g env st ps seq date obj h1 h2
    simp only [append_mark_stateless, if_neg h1, if_pos h2]
  · intro g env st ps obj r nm sg hlen hrec hnon hrs hr2 hwf
    have hd : ¬ st.meta.last_date < st.meta.last_date := lt_irrefl _
    have hs : ¬ st.meta.seq_next ≠ st.meta.seq_next := by simp
    have hrs' : ¬ r.seq ≠ st.meta.seq_next := by simp [hrs]
    simp only [append_mark_stateless, if_neg hlen, if_neg hd, if_neg hs,
      hrec, hnon, if_neg hrs', hr2]
    rcases hpc : precommit_next_mark g env st ps (st.meta.seq_next + 1)
      with ⟨o, st1⟩
    have hpok : o.isOk = true := by
      have := precommit_ok g env st ps (st.meta.seq_next + 1) hlen
        (round_2_sign_names hr2)
      rw [hpc] at this
      exact this
    cases o with
    | err e => simp [Outcome.isOk] at hpok
    | crash e => simp [Outcome.isOk] at hpok
    | ok nr =>
        simp only [hpc]
        rw [mark_new_ok_of
          (kdf_next_length st.meta.id st.meta.seq_next r.root st.meta.res)
          (kdf_next_length st.meta.id (st.meta.seq_next + 1) nr.root
            st.meta.res)
          hwf]
        simp [Outcome.isOk]
  · intro g env st signers date obj key_i seq_i mark nk st' h
    obtain ⟨ha, _, _, _, he, hf, hg, _⟩ := append_with_key_ok h
    exact ⟨ha, hf, not_lt.mp he, hg⟩

/-- The Round-1 commitment bundle drawn by `envOk` for `["alice", "bob"]`. -/
def cmNext : CommitMap := [(1, strBytes "alice"), (2, strBytes "bob")]

/-- The state after the successful stateless append from `stC1`. -/
def stC1' : FrostPmChainState :=
  ⟨⟨.low, [1, 2, 3, 4], 2, 5⟩,
   some ⟨2, commitments_root cmNext, [1, 2], cmNext⟩,
   some [("alice", [7]), ("bob", [7])]⟩

/-- The mark produced by the successful stateless append from `stC1`. -/
def markC1 : ProvenanceMark :=
  ⟨.low, kdf_next [1, 2, 3, 4] 1 (commitments_root cmB) .low,
   kdf_next [1, 2, 3, 4] 2 (commitments_root cmNext) .low,
   [1, 2, 3, 4], 1, 0, none⟩

/-- The next key derived by `append_mark_with_key` from `stC4` at
sequence 5. -/
def nkC4 : Bytes := hkdf_next 4 [9] (hash_message [1, 2, 3, 4] 5 7 []) DS_KDF_NXT

/-- The mark produced by `append_mark_with_key` from `stC4`. -/
def markC4 : ProvenanceMark := ⟨.low, [9, 9, 9, 9], nkC4, [1, 2, 3, 4], 5, 0, none⟩

/-- The state after the `append_mark_with_key` call from `stC4`. -/
def stC4' : FrostPmChainState := ⟨⟨.low, [1, 2, 3, 4], 6, 7⟩, none, none⟩

set_option maxHeartbeats 4000000 in
/-- Witness for C4 on concrete appends (successful, date-rejected,
equal-date-accepted, and caller-supplied-sequence cases). -/
theorem claim_c4_seq_date_monotonicity_witness :
    (markC1.seq = stC1.meta.seq_next ∧
      stC1'.meta.seq_next = stC1.meta.seq_next + 1 ∧
      stC1.meta.last_date ≤ 5 ∧ stC1'.meta.last_date = 5 ∧
      dateSeconds stC1.meta.last_date ≤ markC1.date) ∧
    append_mark_stateless g23 envOk
      ⟨⟨.low, [1, 2, 3, 4], 1, 5⟩, none, none⟩ ["alice", "bob"] 1 3 [] =
      (.err "date monotonicity violated",
       ⟨⟨.low, [1, 2, 3, 4], 1, 5⟩, none, none⟩) ∧
    (append_mark_stateless g23 envOk stC1 ["alice", "bob"]
      stC1.meta.seq_next stC1.meta.last_date []).1.isOk = true ∧
    (markC4.seq = 5 ∧ stC4'.meta.seq_next = 5 + 1 ∧
      stC4.meta.last_date ≤ 7 ∧ stC4'.meta.last_date = 7) :=
  ⟨claim_c4_seq_date_monotonicity.1 g23 envOk stC1 ["alice", "bob"] 1 5 []
      markC1 stC1' (by decide),
   claim_c4_seq_date_monotonicity.2.1 g23 envOk
      ⟨⟨.low, [1, 2, 3, 4], 1, 5⟩, none, none⟩ ["alice", "bob"] 1 3 []
      (by decide) (by decide),
   claim_c4_seq_date_monotonicity.2.2.1 g23 envOk stC1 ["alice", "bob"] []
      ⟨1, commitments_root cmB, [1, 2], cmB⟩ [("alice", [7]), ("bob", [8])]
      [9] (by decide) (by rfl) (by rfl) (by rfl) (by rfl) (by decide),
   claim_c4_seq_date_monotonicity.2.2.2 g23 envOk stC4 ["alice", "bob"] 7 []
      [9, 9, 9, 9] 5 markC4 nkC4 stC4' (by rfl)⟩

/-- Claim C9. For every chain successfully created, the genesis mark
satisfies `is_genesis()`, its key equals its chain id, and every mark
produced by the chain operations has a key of exactly the link length
of the chain's resolution (4, 8, 16 or 32 bytes). -/
theorem claim_c9_genesis_invariants :
    (∀ (g : FrostGroup) (env : CryptoEnv) (res : ProvenanceMarkResolution)
      (signers : List String) (d0 : UtcDate) (obj : Bytes)
      (st : FrostPmChainState) (m0 : ProvenanceMark) (nk : Bytes),
      new_genesis g env res signers d0 obj = .ok (st, m0, nk) →
      m0.is_genesis = true ∧ m0.key = m0.chainId ∧
      m0.key.length = link_len res ∧ st.meta.id = m0.key ∧
      st.meta.res = res) ∧
    (∀ (g : FrostGroup) (env : CryptoEnv) (st : FrostPmChainState)
      (ps : List String) (seq : Nat) (date : UtcDate) (obj : Bytes)
      (mark : ProvenanceMark) (st' : FrostPmChainState),
      append_mark_stateless g env st ps seq date obj = (.ok mark, st') →
      mark.res = st.meta.res ∧ mark.key.length = link_len mark.res) ∧
    (∀ (g : FrostGroup) (env : CryptoEnv) (st : FrostPmChainState)
      (signers : List String) (date : UtcDate) (obj key_i : Bytes)
      (seq_i : Nat) (mark : ProvenanceMark) (nk : Bytes)
      (st' : FrostPmChainState),
      append_mark_with_key g env st signers date obj key_i seq_i =
        (.ok (mark, nk), st') →
      mark.res = st.meta.res ∧ mark.key.length = link_len mark.res) := by
  refine ⟨?_, ?_, ?_⟩
  · intro g env res signers d0 obj st m0 nk h
    obtain ⟨h1, h2, h3, _, h5, h6, h7, _, _, _⟩ := new_genesis_ok h
    exact ⟨h1, h2, h5, h6, h7⟩
  · intro g env st ps seq date obj mark st' h
    obtain ⟨_, _, _, _, _, hf, hg, _⟩ := append_stateless_ok h
    exact ⟨hf, by rw [hf]; exact hg⟩
  · intro g env st signers date obj key_i seq_i mark nk st' h
    obtain ⟨_, _, hc, hd, _, _, _, _⟩ := append_with_key_ok h
    exact ⟨hc, by rw [hc]; exact hd⟩

set_option maxHeartbeats 4000000 in
/-- Witness for C9 on a concrete genesis, stateless append and
keyed append. -/
theorem claim_c9_genesis_invariants_witness :
    ((⟨.low, [220, 162, 143, 48], [152, 155, 164, 221], [220, 162, 143, 48],
        0, 0, none⟩ : ProvenanceMark).is_genesis = true ∧
      (⟨.low, [220, 162, 143, 48], [152, 155, 164, 221], [220, 162, 143, 48],
        0, 0, none⟩ : ProvenanceMark).key =
      (⟨.low, [220, 162, 143, 48], [152, 155, 164, 221], [220, 162, 143, 48],
        0, 0, none⟩ : ProvenanceMark).chainId ∧
      (⟨.low, [220, 162, 143, 48], [152, 155, 164, 221], [220, 162, 143, 48],
        0, 0, none⟩ : ProvenanceMark).key.length = link_len .low ∧
      (⟨⟨.low, [220, 162, 143, 48], 1, 0⟩, none, none⟩ :
        FrostPmChainState).meta.id =
      (⟨.low, [220, 162, 143, 48], [152, 155, 164, 221], [220, 162, 143, 48],
        0, 0, none⟩ : ProvenanceMark).key ∧
      (⟨⟨.low, [220, 162, 143, 48], 1, 0⟩, none, none⟩ :
        FrostPmChainState).meta.res = .low) ∧
    (markC1.res = stC1.meta.res ∧
      markC1.key.length = link_len markC1.res) ∧
    (markC4.res = stC4.meta.res ∧
      markC4.key.length = link_len markC4.res) :=
  ⟨claim_c9_genesis_invariants.1 g23 envOk .low ["alice", "bob"] 0 []
      ⟨⟨.low, [220, 162, 143, 48], 1, 0⟩, none, none⟩
      ⟨.low, [220, 162, 143, 48], [152, 155, 164, 221], [220, 162, 143, 48],
        0, 0, none⟩ [152, 155, 164, 221] (by rfl),
   claim_c9_genesis_invariants.2.1 g23 envOk stC1 ["alice", "bob"] 1 5 []
      markC1 stC1' (by decide),
   claim_c9_genesis_invariants.2.2 g23 envOk stC4 ["alice", "bob"] 7 []
      [9, 9, 9, 9] 5 markC4 nkC4 stC4' (by rfl)⟩
